import Mathlib

/-!
Verification of the version-ledger subsystem (`x-add-version`) of vcpkg-tool.

The definitions below are a shallow embedding of `src/unnamed/part_000`
(`commands.add-version.cpp`): the history reconciler `update_version_db_file`,
the baseline reconciler `update_baseline_version`, the ledger file codec
(`serialize_versions`, `serialize_baseline`, `write_versions_file`,
`write_baseline_file`) and the batch orchestrator `perform_and_exit`.
Collaborators whose definitions are not part of the provided sources
(filesystem, JSON renderer, version grammar parsers, git queries) are modelled
from the specification and marked as such in their doc comments.
-/

/-- `UpdateResult`, source lines 31-35. -/
inductive UpdateResult where
  | Updated
  | NotUpdated
deriving DecidableEq, Repr

/-- `VersionScheme` of `vcpkg::SchemedVersion` (versions.h): the four scheme
tags used by `insert_schemed_version_to_json_object`. -/
inductive VersionScheme where
  | Relaxed
  | Semver
  | Date
  | String
deriving DecidableEq, Repr

/-- `vcpkg::Version`: a version text plus an integer port-version.
Two versions are equal iff both fields match exactly. -/
structure Version where
  text : String
  port_version : Int
deriving DecidableEq, Repr

/-- `vcpkg::SchemedVersion`: a `Version` tagged with a `VersionScheme`. -/
structure SchemedVersion where
  scheme : VersionScheme
  version : Version
deriving DecidableEq, Repr

/-- `using VersionGitTree = std::pair<SchemedVersion, std::string>`, line 119. -/
abbrev VersionGitTree := SchemedVersion × String

/-- The user-visible messages declared with `DECLARE_AND_REGISTER_MESSAGE`
(lines 37-117), reduced to their identity and the payload fields that the
control flow of the command depends on. -/
inductive Msg where
  | suggestNewVersionScheme (new_scheme old_scheme package_name : String)
  | versionAlreadyInFile (path : String)
  | addedVersionToFile (path : String)
  | newFile
  | uncommittedChanges (package_name : String)
  | portFilesShaUnchanged (package_name : String) (version : Version)
  | noFilesUpdated
  | noFilesUpdatedForPort (package_name : String)
  | portFilesShaChanged (package_name : String)
  | unableToParseVersionsFile (path : String)
  | fileNotFound (path : String)
  | ignoringOptionAll
  | useOptionAll
  | loadPortFailed (package_name : String)
  | portHasImproperFormat (package_name : String)
  | noGitSha (package_name : String)
  | portDoesNotExist (package_name : String)
deriving DecidableEq, Repr

/-- JSON values as produced by the codec.  `obj` keeps its fields as an
ordered list because `Json::Object::insert` appends and `Json::stringify`
emits fields in insertion order. -/
inductive JsonValue where
  | str (s : String)
  | int (n : Int)
  | arr (elements : List JsonValue)
  | obj (fields : List (String × JsonValue))

/-- `insert_version_to_json_object`, lines 121-125: insert the version text
under `version_field`, then `port-version`. -/
def insert_version_to_json_object (obj : List (String × JsonValue))
    (version : Version) (version_field : String) : List (String × JsonValue) :=
  obj ++ [(version_field, JsonValue.str version.text),
          ("port-version", JsonValue.int version.port_version)]

/-- `insert_schemed_version_to_json_object`, lines 127-149: pick the field
name from the scheme. -/
def insert_schemed_version_to_json_object (obj : List (String × JsonValue))
    (version : SchemedVersion) : List (String × JsonValue) :=
  match version.scheme with
  | VersionScheme.Relaxed => insert_version_to_json_object obj version.version "version"
  | VersionScheme.Semver => insert_version_to_json_object obj version.version "version-semver"
  | VersionScheme.Date => insert_version_to_json_object obj version.version "version-date"
  | VersionScheme.String => insert_version_to_json_object obj version.version "version-string"

/-- The JSON field name selected by a `VersionScheme`. -/
def scheme_field : VersionScheme → String
  | VersionScheme.Relaxed => "version"
  | VersionScheme.Semver => "version-semver"
  | VersionScheme.Date => "version-date"
  | VersionScheme.String => "version-string"

/-- `serialize_versions`, lines 191-205: each entry object receives
`git-tree` first and then the schemed version fields; the result is one
object with the single key `versions`. -/
def serialize_versions (versions : List VersionGitTree) : JsonValue :=
  JsonValue.obj [("versions", JsonValue.arr (versions.map (fun version =>
    JsonValue.obj (insert_schemed_version_to_json_object
      [("git-tree", JsonValue.str version.2)] version.1))))]

/-- `serialize_baseline`, lines 176-189: map each port to an object holding
its baseline version, all under the single key `default`. -/
def serialize_baseline (baseline : List (String × Version)) : JsonValue :=
  JsonValue.obj [("default", JsonValue.obj (baseline.map (fun kv_pair =>
    (kv_pair.1, JsonValue.obj (insert_version_to_json_object [] kv_pair.2 "baseline")))))]

/-- A run of `n` spaces, for the 2-space-indented rendering. -/
def spaces (n : Nat) : String := String.mk (List.replicate n ' ')

/-- Quoted JSON string (the texts handled by this command contain no
characters needing escapes). -/
def quote_string (s : String) : String := "\"" ++ s ++ "\""

mutual

/-- Modelled from the spec: `Json::stringify` (base/json.cpp) is not under
src/; per §6 the files are JSON, 2-space indented.  Any deterministic
renderer makes the on-disk bytes a function of the `JsonValue`. -/
def stringify_value (indent : Nat) : JsonValue → String
  | JsonValue.str s => quote_string s
  | JsonValue.int n => toString n
  | JsonValue.arr elements =>
    "[\n" ++ stringify_array (indent + 2) elements ++ spaces indent ++ "]"
  | JsonValue.obj fields =>
    "\x7b\n" ++ stringify_fields (indent + 2) fields ++ spaces indent ++ "\x7d"

/-- Array elements, one per line, comma separated. -/
def stringify_array (indent : Nat) : List JsonValue → String
  | [] => ""
  | [x] => spaces indent ++ stringify_value indent x ++ "\n"
  | x :: y :: rest =>
    spaces indent ++ stringify_value indent x ++ ",\n" ++ stringify_array indent (y :: rest)

/-- Object fields, one per line, comma separated. -/
def stringify_fields (indent : Nat) : List (String × JsonValue) → String
  | [] => ""
  | [(k, v)] => spaces indent ++ quote_string k ++ ": " ++ stringify_value indent v ++ "\n"
  | (k, v) :: kv :: rest =>
    spaces indent ++ quote_string k ++ ": " ++ stringify_value indent v ++ ",\n" ++
      stringify_fields indent (kv :: rest)

end

/-- Top-level rendering of a ledger file. -/
def stringify (v : JsonValue) : String := stringify_value 0 v

/-- The filesystem operations issued by `write_baseline_file` (lines 207-217)
and `write_versions_file` (lines 219-228). -/
inductive FsOp where
  | create_directories (dir : String)
  | write_contents (path content : String)
  | rename (source destination : String)

/-- Modelled from the spec: `Path::parent_path` of the repository's path
type is not under src/; the directory part of a `/`-separated path. -/
def parent_path (p : String) : String :=
  String.intercalate "/" ((p.splitOn "/").dropLast)

/-- `write_versions_file`, lines 219-228: write the rendered JSON to the
sibling `.tmp` path, then rename it over the target. -/
def write_versions_file_ops (versions : List VersionGitTree)
    (output_path : String) : List FsOp :=
  [FsOp.create_directories (parent_path output_path),
   FsOp.write_contents (output_path ++ ".tmp") (stringify (serialize_versions versions)),
   FsOp.rename (output_path ++ ".tmp") output_path]

/-- `write_baseline_file`, lines 207-217: same write-then-rename shape for
the baseline file. -/
def write_baseline_file_ops (baseline_map : List (String × Version))
    (output_path : String) : List FsOp :=
  [FsOp.create_directories (parent_path output_path),
   FsOp.write_contents (output_path ++ ".tmp") (stringify (serialize_baseline baseline_map)),
   FsOp.rename (output_path ++ ".tmp") output_path]

/-- Modelled from the spec: the `Filesystem` collaborator is not under src/.
A filesystem is a map from paths to complete file contents; each operation
is applied atomically, and interrupted writes are treated separately in the
theorems about atomicity. -/
def run_op (fs : String → Option String) : FsOp → (String → Option String)
  | FsOp.create_directories _ => fs
  | FsOp.write_contents path content =>
    fun q => if q = path then some content else fs q
  | FsOp.rename source destination =>
    fun q => if q = destination then fs source else if q = source then none else fs q

/-- Apply a sequence of filesystem operations in order. -/
def run_ops (ops : List FsOp) (fs : String → Option String) : String → Option String :=
  ops.foldl run_op fs

/-- On-disk state of one per-port history file, as observed through
`fs.exists` plus `get_builtin_versions`.  Modelled from the spec:
`get_builtin_versions` (registries.cpp) is not under src/; per §4.2 a missing
file signals "no prior history" and a malformed one is fatal for the port. -/
inductive FileContent where
  | absent
  | malformed
  | parsed (versions : List VersionGitTree)
deriving DecidableEq, Repr

/-- On-disk state of the baseline file, as observed through `fs.exists` plus
`get_builtin_baseline`.  Modelled from the spec: `get_builtin_baseline` is
not under src/; a missing baseline is a fatal precondition, a malformed one
aborts the run. -/
inductive BaselineFile where
  | absent
  | malformed
  | parsed (baseline_map : List (String × Version))
deriving DecidableEq, Repr

/-- Result of a piece of the command that may terminate the process
(`Checks::exit_fail`, `Checks::msg_exit_with_message`): either a value
together with the messages printed so far, or a process exit. -/
inductive Outcome (α : Type) where
  | ok (msgs : List Msg) (val : α)
  | exited (msgs : List Msg) (code : Nat)
deriving DecidableEq, Repr

/-- Modelled from the spec: `DateVersion::try_parse` (versions.cpp) is not
under src/; per §4.1 it recognises a `YYYY-MM-DD`-shaped text. -/
def date_version_try_parse (s : String) : Bool :=
  match s.toList with
  | [y1, y2, y3, y4, d1, m1, m2, d2, a, b] =>
    y1.isDigit && y2.isDigit && y3.isDigit && y4.isDigit && d1 == '-' &&
      m1.isDigit && m2.isDigit && d2 == '-' && a.isDigit && b.isDigit
  | _ => false

/-- Modelled from the spec: `DotVersion::try_parse_relaxed` (versions.cpp) is
not under src/; per §4.1 it recognises a dotted-numeric text. -/
def dot_version_try_parse_relaxed (s : String) : Bool :=
  !s.isEmpty && (s.splitOn ".").all (fun part => !part.isEmpty && part.toList.all Char.isDigit)

/-- `check_used_version_scheme`, lines 151-174: for a `String`-schemed
version whose text parses as a date or as a relaxed version, exit with a
scheme suggestion (`some msg` stands for the `msg_exit_with_message` call). -/
def check_used_version_scheme (version : SchemedVersion) (port_name : String) : Option Msg :=
  if version.scheme = VersionScheme.String then
    if date_version_try_parse version.version.text then
      some (Msg.suggestNewVersionScheme "version-date" "version-string" port_name)
    else if dot_version_try_parse_relaxed version.version.text then
      some (Msg.suggestNewVersionScheme "version" "version-string" port_name)
    else none
  else none

/-- The `std::find_if` over entries comparing the fingerprint, line 306. -/
def find_same_sha : List VersionGitTree → String → Option VersionGitTree
  | [], _ => none
  | entry :: rest, git_tree =>
    if entry.2 = git_tree then some entry else find_same_sha rest git_tree

/-- The `std::find_if` over entries comparing the full `Version`, line 338. -/
def find_same_version : List VersionGitTree → Version → Option VersionGitTree
  | [], _ => none
  | entry :: rest, v =>
    if entry.1.version = v then some entry else find_same_version rest v

/-- Position of the iterator returned by the search of line 338 (the length
of the list when there is no match). -/
def find_version_idx : List VersionGitTree → Version → Nat
  | [], _ => 0
  | entry :: rest, v =>
    if entry.1.version = v then 0 else find_version_idx rest v + 1

/-- The in-place assignment `it->first = port_version; it->second = git_tree`
of lines 367-368: replace the first entry whose `Version` equals
`port_version.version`, leaving every other position unchanged. -/
def replace_first_version_match (port_version : SchemedVersion) (git_tree : String) :
    List VersionGitTree → List VersionGitTree
  | [] => []
  | entry :: rest =>
    if entry.1.version = port_version.version then (port_version, git_tree) :: rest
    else entry :: replace_first_version_match port_version git_tree rest

/-- The tail of the `Updated` paths of `update_version_db_file` (lines
375-388): run the scheme check unless skipped, write the new contents,
print the success message when verbose. -/
def finish_versions_write (port_name : String) (port_version : SchemedVersion)
    (version_db_file_path : String) (print_success skip_version_format_check : Bool)
    (new_versions : List VersionGitTree) : Outcome (UpdateResult × FileContent × Bool) :=
  match (if skip_version_format_check then none
         else check_used_version_scheme port_version port_name) with
  | some m => Outcome.exited [m] 1
  | none =>
    Outcome.ok (if print_success then [Msg.addedVersionToFile version_db_file_path] else [])
      (UpdateResult.Updated, FileContent.parsed new_versions, true)

/-- `update_version_db_file`, lines 270-395.  The returned `Bool` records
whether `write_versions_file` was called. -/
def update_version_db_file (port_name : String) (port_version : SchemedVersion)
    (git_tree : String) (version_db_file_path : String) (file : FileContent)
    (overwrite_version print_success keep_going skip_version_format_check : Bool) :
    Outcome (UpdateResult × FileContent × Bool) :=
  match file with
  | FileContent.absent =>
    match (if skip_version_format_check then none
           else check_used_version_scheme port_version port_name) with
    | some m => Outcome.exited [m] 1
    | none =>
      Outcome.ok
        (if print_success then [Msg.addedVersionToFile version_db_file_path, Msg.newFile]
         else [])
        (UpdateResult.Updated, FileContent.parsed [(port_version, git_tree)], true)
  | FileContent.malformed =>
    Outcome.exited [Msg.unableToParseVersionsFile version_db_file_path] 1
  | FileContent.parsed versions =>
    match find_same_sha versions git_tree with
    | some found_same_sha =>
      if found_same_sha.1.version = port_version.version then
        Outcome.ok
          (if print_success then [Msg.versionAlreadyInFile version_db_file_path] else [])
          (UpdateResult.NotUpdated, FileContent.parsed versions, false)
      else
        if keep_going then
          Outcome.ok [Msg.portFilesShaUnchanged port_name found_same_sha.1.version,
                      Msg.noFilesUpdated]
            (UpdateResult.NotUpdated, FileContent.parsed versions, false)
        else
          Outcome.exited [Msg.portFilesShaUnchanged port_name found_same_sha.1.version,
                          Msg.noFilesUpdated] 1
    | none =>
      if (find_same_version versions port_version.version).isSome then
        if !overwrite_version then
          if keep_going then
            Outcome.ok [Msg.portFilesShaChanged port_name, Msg.noFilesUpdated]
              (UpdateResult.NotUpdated, FileContent.parsed versions, false)
          else
            Outcome.exited [Msg.portFilesShaChanged port_name, Msg.noFilesUpdated] 1
        else
          finish_versions_write port_name port_version version_db_file_path
            print_success skip_version_format_check
            (replace_first_version_match port_version git_tree versions)
      else
        finish_versions_write port_name port_version version_db_file_path
          print_success skip_version_format_check
          ((port_version, git_tree) :: versions)

/-- The `std::map::find` of line 239. -/
def find_port : List (String × Version) → String → Option (String × Version)
  | [], _ => none
  | kv :: rest, port_name =>
    if kv.1 = port_name then some kv else find_port rest port_name

/-- Assignment into the `std::map` (lines 254 and 258): overwrite the entry
for the key or insert it, keeping the map ordered by key as `std::map` does. -/
def baseline_set : List (String × Version) → String → Version → List (String × Version)
  | [], port_name, version => [(port_name, version)]
  | kv :: rest, port_name, version =>
    if kv.1 = port_name then (port_name, version) :: rest
    else if port_name < kv.1 then (port_name, version) :: kv :: rest
    else kv :: baseline_set rest port_name version

/-- `update_baseline_version`, lines 230-268.  Returns the printed messages,
the result, the new map, and whether `write_baseline_file` was called. -/
def update_baseline_version (port_name : String) (version : Version)
    (baseline_path_arg : String) (baseline_map : List (String × Version))
    (print_success : Bool) :
    List Msg × UpdateResult × List (String × Version) × Bool :=
  match find_port baseline_map port_name with
  | some kv =>
    if kv.2 = version then
      ((if print_success then [Msg.versionAlreadyInFile baseline_path_arg] else []),
       UpdateResult.NotUpdated, baseline_map, false)
    else
      ((if print_success then [Msg.addedVersionToFile baseline_path_arg] else []),
       UpdateResult.Updated, baseline_set baseline_map port_name version, true)
  | none =>
    ((if print_success then [Msg.addedVersionToFile baseline_path_arg] else []),
     UpdateResult.Updated, baseline_set baseline_map port_name version, true)

/-- The path of a port's history file, derived (line 542-543) from the first
character of the port name as a bucket directory. -/
def version_db_path (port_name : String) : String :=
  "versions/" ++ port_name.take 1 ++ "-/" ++ port_name ++ ".json"

/-- `paths.builtin_registry_versions / "baseline.json"`, line 427. -/
def baseline_path : String := "versions/baseline.json"

/-- The registry state touched by one port: its history file, the in-memory
baseline map shared across ports, and the on-disk baseline file. -/
structure PortStepState where
  version_db_file : FileContent
  baseline_map : List (String × Version)
  baseline_file : BaselineFile
deriving DecidableEq, Repr

/-- Lines 544-559 of `perform_and_exit`: run the history reconciler, then the
baseline reconciler, then report when nothing was updated.  The two `Bool`s
are the write flags of the two reconcilers. -/
def process_port_updates (port_name : String) (schemed_version : SchemedVersion)
    (git_tree : String) (overwrite_version verbose keep_going skip_version_format_check : Bool)
    (st : PortStepState) :
    Outcome (UpdateResult × UpdateResult × PortStepState × Bool × Bool) :=
  match update_version_db_file port_name schemed_version git_tree (version_db_path port_name)
      st.version_db_file overwrite_version verbose keep_going skip_version_format_check with
  | Outcome.exited m code => Outcome.exited m code
  | Outcome.ok m1 val =>
    let r := update_baseline_version port_name schemed_version.version baseline_path
      st.baseline_map verbose
    Outcome.ok
      (m1 ++ r.1 ++
        (if verbose ∧ val.1 = UpdateResult.NotUpdated ∧ r.2.1 = UpdateResult.NotUpdated
         then [Msg.noFilesUpdatedForPort port_name] else []))
      (val.1, r.2.1,
       ⟨val.2.1, r.2.2.1,
        if r.2.2.2 then BaselineFile.parsed r.2.2.1 else st.baseline_file⟩,
       val.2.2, r.2.2.2)

/-- Per-port data supplied by the collaborators of §6: directory existence,
`Paragraphs::try_load_port` (reduced to the `to_schemed_version()` of the
loaded recipe), manifest formatting state, `git_port_has_local_changes`, and
the port's entry in the `git_get_local_port_treeish_map` result. -/
structure PortInfo where
  dir_exists : Bool
  load_result : Option SchemedVersion
  manifest_exists : Bool
  manifest_formatted : Bool
  has_local_changes : Option Bool
  git_tree : Option String
deriving DecidableEq, Repr

/-- A port that is not in the environment at all. -/
def PortInfo.missing : PortInfo := ⟨false, none, false, false, none, none⟩

/-- The environment of a run: the collaborator data per port, the directory
listing of the ports tree (line 450), and whether the git tree-ish map of
line 467 is available. -/
structure Env where
  ports : List (String × PortInfo)
  all_port_names : List String
  git_tree_map_ok : Bool
deriving DecidableEq, Repr

/-- Look up a port's collaborator data. -/
def Env.info (env : Env) (port_name : String) : PortInfo :=
  match env.ports.find? (fun kv => kv.1 == port_name) with
  | some kv => kv.2
  | none => PortInfo.missing

/-- The parsed command line: positional arguments and the switch set. -/
structure Args where
  command_arguments : List String
  switches : List String
deriving DecidableEq, Repr

/-- On-disk registry state at the start of a run. -/
structure RegistryState where
  baseline : BaselineFile
  version_db : List (String × FileContent)
deriving DecidableEq, Repr

/-- Read a port's history file from the registry state. -/
def get_version_db : List (String × FileContent) → String → FileContent
  | [], _ => FileContent.absent
  | kv :: rest, port_name =>
    if kv.1 = port_name then kv.2 else get_version_db rest port_name

/-- Overwrite (or create) a port's history file in the registry state. -/
def set_version_db : List (String × FileContent) → String → FileContent →
    List (String × FileContent)
  | [], port_name, content => [(port_name, content)]
  | kv :: rest, port_name, content =>
    if kv.1 = port_name then (port_name, content) :: rest
    else kv :: set_version_db rest port_name content

/-- The outcome of a whole run: messages, exit code, and final on-disk state. -/
structure RunResult where
  msgs : List Msg
  exit_code : Nat
  final_version_db : List (String × FileContent)
  final_baseline : BaselineFile
deriving DecidableEq, Repr

/-- Lines 433-454 of `perform_and_exit`: the list of target ports.  A named
port wins over `--all` (with a warning); with no argument, `--all` is
required (`Checks::msg_check_exit`, modelled by `none` = exit). -/
def computed_port_names (args : Args) (all_port_names : List String) :
    List Msg × Option (List String) :=
  match args.command_arguments with
  | arg0 :: _ =>
    ((if args.switches.contains "all" then [Msg.ignoringOptionAll] else []), some [arg0])
  | [] =>
    if args.switches.contains "all" then ([], some all_port_names)
    else ([Msg.useOptionAll], none)

/-- Line 424: `verbose = !add_all || contains(switches, OPTION_VERBOSE)`. -/
def computed_verbose (switches : List String) : Bool :=
  !switches.contains "all" || switches.contains "verbose"

/-- The lambda of lines 456-464: an absent baseline file yields an empty map,
a malformed one exits (`value_or_exit`), a parsed one is used as is. -/
def load_baseline_map : BaselineFile → Option (List (String × Version))
  | BaselineFile.absent => some []
  | BaselineFile.malformed => none
  | BaselineFile.parsed baseline_map => some baseline_map

/-- The per-port loop of `perform_and_exit`, lines 470-561.  Each failure
branch prints its message and then runs
`Checks::check_exit(VCPKG_LINE_INFO, !add_all)` — which exits the process
when `add_all` is true and otherwise falls through to `continue`. -/
def process_ports (env : Env)
    (add_all overwrite_version skip_formatting_check skip_version_format_check verbose : Bool)
    (msgs : List Msg) (version_db : List (String × FileContent))
    (baseline_map : List (String × Version)) (baseline_disk : BaselineFile) :
    List String → RunResult
  | [] => ⟨msgs, 0, version_db, baseline_disk⟩
  | port_name :: rest =>
    let info := env.info port_name
    if !info.dir_exists then
      let msgs := msgs ++ [Msg.portDoesNotExist port_name]
      if add_all then ⟨msgs, 1, version_db, baseline_disk⟩
      else process_ports env add_all overwrite_version skip_formatting_check
        skip_version_format_check verbose msgs version_db baseline_map baseline_disk rest
    else
      match info.load_result with
      | none =>
        let msgs := msgs ++ [Msg.loadPortFailed port_name]
        if add_all then ⟨msgs, 1, version_db, baseline_disk⟩
        else process_ports env add_all overwrite_version skip_formatting_check
          skip_version_format_check verbose msgs version_db baseline_map baseline_disk rest
      | some schemed_version =>
        if !skip_formatting_check ∧ info.manifest_exists ∧ !info.manifest_formatted then
          let msgs := msgs ++ [Msg.portHasImproperFormat port_name]
          if add_all then ⟨msgs, 1, version_db, baseline_disk⟩
          else process_ports env add_all overwrite_version skip_formatting_check
            skip_version_format_check verbose msgs version_db baseline_map baseline_disk rest
        else
          let msgs := msgs ++
            (if info.has_local_changes = some true then [Msg.uncommittedChanges port_name]
             else [])
          match info.git_tree with
          | none =>
            let msgs := msgs ++ [Msg.noGitSha port_name]
            if add_all then ⟨msgs, 1, version_db, baseline_disk⟩
            else process_ports env add_all overwrite_version skip_formatting_check
              skip_version_format_check verbose msgs version_db baseline_map baseline_disk rest
          | some git_tree =>
            match process_port_updates port_name schemed_version git_tree overwrite_version
                verbose add_all skip_version_format_check
                ⟨get_version_db version_db port_name, baseline_map, baseline_disk⟩ with
            | Outcome.exited m code => ⟨msgs ++ m, code, version_db, baseline_disk⟩
            | Outcome.ok m (_, _, st, wrote_versions, _) =>
              let version_db :=
                if wrote_versions then set_version_db version_db port_name st.version_db_file
                else version_db
              process_ports env add_all overwrite_version skip_formatting_check
                skip_version_format_check verbose (msgs ++ m) version_db st.baseline_map
                st.baseline_file rest

/-- `perform_and_exit`, lines 416-562. -/
def perform_and_exit (args : Args) (env : Env) (st : RegistryState) : RunResult :=
  let add_all := args.switches.contains "all"
  let overwrite_version := args.switches.contains "overwrite-version"
  let skip_formatting_check := args.switches.contains "skip-formatting-check"
  let skip_version_format_check := args.switches.contains "skip-version-format-check"
  let verbose := computed_verbose args.switches
  if st.baseline = BaselineFile.absent then
    ⟨[Msg.fileNotFound baseline_path], 1, st.version_db, st.baseline⟩
  else
    match computed_port_names args env.all_port_names with
    | (msgs0, none) => ⟨msgs0, 1, st.version_db, st.baseline⟩
    | (msgs0, some port_names) =>
      match load_baseline_map st.baseline with
      | none => ⟨msgs0, 1, st.version_db, st.baseline⟩
      | some baseline_map =>
        if !env.git_tree_map_ok then ⟨msgs0, 1, st.version_db, st.baseline⟩
        else process_ports env add_all overwrite_version skip_formatting_check
          skip_version_format_check verbose msgs0 st.version_db baseline_map st.baseline
          port_names

/-- The `PortHistory` invariant as realised by the code: pairwise distinct
fingerprints and pairwise distinct full `Version`s (text and port-version). -/
def history_invariant : List VersionGitTree → Bool
  | [] => true
  | entry :: rest =>
    rest.all (fun other => decide (other.2 ≠ entry.2 ∧ other.1.version ≠ entry.1.version)) &&
      history_invariant rest

/-- The invariant as the specification words it: pairwise distinct
fingerprints and pairwise distinct version texts. -/
def history_text_invariant : List VersionGitTree → Bool
  | [] => true
  | entry :: rest =>
    rest.all (fun other =>
      decide (other.2 ≠ entry.2 ∧ other.1.version.text ≠ entry.1.version.text)) &&
      history_text_invariant rest

/-- The invariant lifted to an on-disk history file. -/
def file_invariant : FileContent → Bool
  | FileContent.absent => true
  | FileContent.malformed => true
  | FileContent.parsed versions => history_invariant versions

/-! ## Theorems -/

/-- C7 (amended): the per-port history file is one JSON object with key
`versions` holding an array of entry objects whose fields appear in the
order `git-tree`, then the scheme-selected field, then `port-version`; the
scheme-selected field is one of the four fixed names. -/
theorem addversion_serialize_versions_field_order (versions : List VersionGitTree) :
    serialize_versions versions = JsonValue.obj [("versions", JsonValue.arr (versions.map
      (fun entry => JsonValue.obj
        [("git-tree", JsonValue.str entry.2),
         (scheme_field entry.1.scheme, JsonValue.str entry.1.version.text),
         ("port-version", JsonValue.int entry.1.version.port_version)])))] ∧
    ∀ scheme : VersionScheme,
      scheme_field scheme ∈ ["version", "version-semver", "version-date", "version-string"] := by
  constructor
  · have h : ∀ vs : List VersionGitTree,
        vs.map (fun version => JsonValue.obj (insert_schemed_version_to_json_object
          [("git-tree", JsonValue.str version.2)] version.1)) =
        vs.map (fun entry => JsonValue.obj
          [("git-tree", JsonValue.str entry.2),
           (scheme_field entry.1.scheme, JsonValue.str entry.1.version.text),
           ("port-version", JsonValue.int entry.1.version.port_version)]) := by
      intro vs
      induction vs with
      | nil => rfl
      | cons e rest ih =>
        simp only [List.map_cons, ih, List.cons.injEq, and_true]
        cases e with
        | mk sv git_tree =>
          cases sv with
          | mk scheme ver => cases scheme <;> rfl
    unfold serialize_versions
    rw [h versions]
  · intro scheme
    cases scheme <;> simp [scheme_field]

/-- C7 (counterexample): for a concrete entry the serialized field order is
`git-tree`, `version`, `port-version`, not the claimed `version`,
`port-version`, `git-tree`. -/
theorem addversion_field_order_counterexample :
    serialize_versions [(⟨VersionScheme.Relaxed, ⟨"1.2.0", 0⟩⟩, "abc")] =
      JsonValue.obj [("versions", JsonValue.arr [JsonValue.obj
        [("git-tree", JsonValue.str "abc"), ("version", JsonValue.str "1.2.0"),
         ("port-version", JsonValue.int 0)]])] ∧
    ["git-tree", "version", "port-version"] ≠ ["version", "port-version", "git-tree"] :=
  ⟨rfl, by decide⟩

/-- C8: the baseline reconciler inserts an absent port and signals `Updated`;
with an equal recorded `Version` it signals `NotUpdated` and does not write;
with a different recorded `Version` it overwrites and signals `Updated`; the
write flag is set exactly on the `Updated` outcomes. -/
theorem addversion_update_baseline_cases (port_name : String) (version : Version)
    (path : String) (baseline_map : List (String × Version)) (print_success : Bool) :
    (find_port baseline_map port_name = none →
      update_baseline_version port_name version path baseline_map print_success =
        ((if print_success then [Msg.addedVersionToFile path] else []),
         UpdateResult.Updated, baseline_set baseline_map port_name version, true)) ∧
    (∀ kv, find_port baseline_map port_name = some kv → kv.2 = version →
      update_baseline_version port_name version path baseline_map print_success =
        ((if print_success then [Msg.versionAlreadyInFile path] else []),
         UpdateResult.NotUpdated, baseline_map, false)) ∧
    (∀ kv, find_port baseline_map port_name = some kv → kv.2 ≠ version →
      update_baseline_version port_name version path baseline_map print_success =
        ((if print_success then [Msg.addedVersionToFile path] else []),
         UpdateResult.Updated, baseline_set baseline_map port_name version, true)) := by
  refine ⟨?_, ?_, ?_⟩
  · intro h
    simp [update_baseline_version, h]
  · intro kv h h2
    simp [update_baseline_version, h, h2]
  · intro kv h h2
    simp [update_baseline_version, h, h2]

/-- Witness for `addversion_update_baseline_cases` at concrete inputs. -/
theorem addversion_update_baseline_cases_witness :
    update_baseline_version "p" ⟨"1.0", 0⟩ baseline_path [] false =
      ([], UpdateResult.Updated, [("p", ⟨"1.0", 0⟩)], true) ∧
    update_baseline_version "p" ⟨"1.0", 0⟩ baseline_path [("p", ⟨"1.0", 0⟩)] false =
      ([], UpdateResult.NotUpdated, [("p", ⟨"1.0", 0⟩)], false) := by
  have h1 := (addversion_update_baseline_cases "p" ⟨"1.0", 0⟩ baseline_path [] false).1
    (by decide)
  have h2 := (addversion_update_baseline_cases "p" ⟨"1.0", 0⟩ baseline_path
    [("p", ⟨"1.0", 0⟩)] false).2.1 ("p", ⟨"1.0", 0⟩) (by decide) rfl
  exact ⟨by simpa [baseline_set] using h1, by simpa using h2⟩

/-- C10: both persisting writes first write the full new content to the
sibling `.tmp` path and then rename it over the target, so after every
proper prefix of the operation sequence the target still holds its old
content, after the full sequence it holds exactly the new rendering, and an
interrupted temp-file write (arbitrary content) never touches the target. -/
theorem addversion_write_files_atomic (versions : List VersionGitTree)
    (baseline_map : List (String × Version)) (output_path : String)
    (fs : String → Option String) :
    (∀ k, k < (write_versions_file_ops versions output_path).length →
      run_ops ((write_versions_file_ops versions output_path).take k) fs output_path =
        fs output_path) ∧
    run_ops (write_versions_file_ops versions output_path) fs output_path =
      some (stringify (serialize_versions versions)) ∧
    (∀ content, run_op fs (FsOp.write_contents (output_path ++ ".tmp") content) output_path =
      fs output_path) ∧
    (∀ k, k < (write_baseline_file_ops baseline_map output_path).length →
      run_ops ((write_baseline_file_ops baseline_map output_path).take k) fs output_path =
        fs output_path) ∧
    run_ops (write_baseline_file_ops baseline_map output_path) fs output_path =
      some (stringify (serialize_baseline baseline_map)) := by
  have hne : output_path ≠ output_path ++ ".tmp" := by
    intro h
    have hlen := congrArg String.length h
    have h4 : (".tmp" : String).length = 4 := rfl
    rw [String.length_append, h4] at hlen
    omega
  refine ⟨?_, ?_, ?_, ?_, ?_⟩
  · intro k hk
    simp only [write_versions_file_ops, List.length_cons, List.length_nil] at hk
    interval_cases k <;>
      simp [write_versions_file_ops, run_ops, run_op, hne]
  · simp [write_versions_file_ops, run_ops, run_op, hne]
  · intro content
    simp [run_op, hne]
  · intro k hk
    simp only [write_baseline_file_ops, List.length_cons, List.length_nil] at hk
    interval_cases k <;>
      simp [write_baseline_file_ops, run_ops, run_op, hne]
  · simp [write_baseline_file_ops, run_ops, run_op, hne]

/-- Witness for `addversion_write_files_atomic` at a concrete input. -/
theorem addversion_write_files_atomic_witness :
    run_ops ((write_versions_file_ops [(⟨VersionScheme.Relaxed, ⟨"1.0", 0⟩⟩, "A")]
        "versions/p-/p.json").take 2) (fun _ => none) "versions/p-/p.json" =
      (fun _ => (none : Option String)) "versions/p-/p.json" ∧
    run_ops (write_versions_file_ops [(⟨VersionScheme.Relaxed, ⟨"1.0", 0⟩⟩, "A")]
        "versions/p-/p.json") (fun _ => none) "versions/p-/p.json" =
      some (stringify (serialize_versions [(⟨VersionScheme.Relaxed, ⟨"1.0", 0⟩⟩, "A")])) :=
  ⟨(addversion_write_files_atomic [(⟨VersionScheme.Relaxed, ⟨"1.0", 0⟩⟩, "A")] []
      "versions/p-/p.json" (fun _ => none)).1 2 (by decide),
   (addversion_write_files_atomic [(⟨VersionScheme.Relaxed, ⟨"1.0", 0⟩⟩, "A")] []
      "versions/p-/p.json" (fun _ => none)).2.1⟩

/-- A batch run over two ports where the first port's recipe fails to load
and the second is healthy. -/
def c1_env_a : Env :=
  ⟨[("alpha", ⟨true, none, false, true, none, some "SA"⟩),
    ("beta", ⟨true, some ⟨VersionScheme.Relaxed, ⟨"1.0", 0⟩⟩, false, true, none, some "SB"⟩)],
   ["alpha", "beta"], true⟩

/-- Initial state for the two-port batch run: empty baseline, no history. -/
def c1_st_a : RegistryState := ⟨BaselineFile.parsed [], []⟩

/-- A batch run over one port whose history update is refused (same
fingerprint recorded under a different version). -/
def c1_env_b : Env :=
  ⟨[("gamma", ⟨true, some ⟨VersionScheme.Relaxed, ⟨"2.0", 0⟩⟩, false, true, none, some "A"⟩)],
   ["gamma"], true⟩

/-- Initial state for the refused-update run: `gamma`'s history already binds
fingerprint `A` to version `1.0`. -/
def c1_st_b : RegistryState :=
  ⟨BaselineFile.parsed [],
   [("gamma", FileContent.parsed [(⟨VersionScheme.Relaxed, ⟨"1.0", 0⟩⟩, "A")])]⟩

/-- C1 (code, at the failing inputs): in batch (`--all`) mode a per-port load
failure aborts the whole run with exit code 1 before the remaining ports are
processed (`Checks::check_exit(VCPKG_LINE_INFO, !add_all)` exits when
`add_all` is true), and a refused history update is reported but the run
still ends with `Checks::exit_success`, exit code 0 — not the
record-and-continue with overall non-zero exit that the claim states. -/
theorem addversion_batch_mode_failure_handling :
    (perform_and_exit ⟨[], ["all"]⟩ c1_env_a c1_st_a).exit_code = 1 ∧
    (perform_and_exit ⟨[], ["all"]⟩ c1_env_a c1_st_a).final_version_db = [] ∧
    (perform_and_exit ⟨[], ["all"]⟩ c1_env_b c1_st_b).exit_code = 0 ∧
    Msg.portFilesShaUnchanged "gamma" ⟨"1.0", 0⟩ ∈
      (perform_and_exit ⟨[], ["all"]⟩ c1_env_b c1_st_b).msgs := by
  decide

/-- A healthy single port `p` for the `--all`-with-argument runs. -/
def c9_env : Env :=
  ⟨[("p", ⟨true, some ⟨VersionScheme.Relaxed, ⟨"1.0", 0⟩⟩, false, true, none, some "G"⟩)],
   ["p"], true⟩

/-- Initial state for the `--all`-with-argument runs. -/
def c9_st : RegistryState := ⟨BaselineFile.parsed [], []⟩

/-- C9 (counterexample): naming a port together with `--all` does not behave
as if `--all` were ignored: the run stays non-verbose (no success messages),
while the same invocation without `--all` prints them; `verbose` is computed
from `add_all` before the warning is issued. -/
theorem addversion_all_with_port_name_counterexample :
    (perform_and_exit ⟨["p"], ["all"]⟩ c9_env c9_st).msgs = [Msg.ignoringOptionAll] ∧
    (perform_and_exit ⟨["p"], []⟩ c9_env c9_st).msgs =
      [Msg.addedVersionToFile (version_db_path "p"), Msg.newFile,
       Msg.addedVersionToFile baseline_path] ∧
    computed_verbose ["all"] = false ∧ computed_verbose [] = true := by
  decide

/-- C9 (amended): a port name argument together with `--all` is accepted; the
warning is emitted and exactly the one named port is processed, but the
`all` switch stays in effect for the rest of the run: verbose reporting
defaults off (it is on only with the explicit `verbose` switch). -/
theorem addversion_all_with_port_name_behavior (args : Args) (all_port_names : List String)
    (p : String) (rest : List String)
    (harg : args.command_arguments = p :: rest)
    (hall : args.switches.contains "all" = true) :
    computed_port_names args all_port_names = ([Msg.ignoringOptionAll], some [p]) ∧
    computed_verbose args.switches = args.switches.contains "verbose" := by
  have hmem : "all" ∈ args.switches := by simpa using hall
  constructor
  · simp [computed_port_names, harg, hmem]
  · simp only [computed_verbose, hall, Bool.not_true, Bool.false_or]

/-- Witness for `addversion_all_with_port_name_behavior` at a concrete input. -/
theorem addversion_all_with_port_name_behavior_witness :
    computed_port_names ⟨["p"], ["all"]⟩ ["q"] = ([Msg.ignoringOptionAll], some ["p"]) ∧
    computed_verbose ["all"] = (["all"] : List String).contains "verbose" :=
  addversion_all_with_port_name_behavior ⟨["p"], ["all"]⟩ ["q"] "p" [] rfl (by decide)

/-! ## Helper lemmas about the search and replacement primitives -/

theorem find_same_sha_eq_none_iff (versions : List VersionGitTree) (git_tree : String) :
    find_same_sha versions git_tree = none ↔ ∀ e ∈ versions, e.2 ≠ git_tree := by
  induction versions with
  | nil => simp [find_same_sha]
  | cons e rest ih =>
    by_cases h : e.2 = git_tree <;> simp [find_same_sha, h, ih]

theorem find_same_version_eq_none_iff (versions : List VersionGitTree) (v : Version) :
    find_same_version versions v = none ↔ ∀ e ∈ versions, e.1.version ≠ v := by
  induction versions with
  | nil => simp [find_same_version]
  | cons e rest ih =>
    by_cases h : e.1.version = v <;> simp [find_same_version, h, ih]

theorem find_same_sha_of_mem (versions : List VersionGitTree) (e : VersionGitTree)
    (git_tree : String) (hinv : history_invariant versions = true)
    (hmem : e ∈ versions) (hgt : e.2 = git_tree) :
    find_same_sha versions git_tree = some e := by
  induction versions with
  | nil => simp at hmem
  | cons a rest ih =>
    simp only [history_invariant, Bool.and_eq_true, List.all_eq_true, decide_eq_true_eq]
      at hinv
    rcases List.mem_cons.mp hmem with rfl | hmem'
    · simp [find_same_sha, hgt]
    · have hne : e.2 ≠ a.2 := (hinv.1 e hmem').1
      have ha : a.2 ≠ git_tree := fun hc => hne (hgt.trans hc.symm)
      simp [find_same_sha, ha, ih hinv.2 hmem']

theorem replace_first_eq_set (port_version : SchemedVersion) (git_tree : String)
    (versions : List VersionGitTree) :
    replace_first_version_match port_version git_tree versions =
      versions.set (find_version_idx versions port_version.version)
        (port_version, git_tree) := by
  induction versions with
  | nil => rfl
  | cons a rest ih =>
    by_cases h : a.1.version = port_version.version
    · simp [replace_first_version_match, find_version_idx, h]
    · simp [replace_first_version_match, find_version_idx, h, ih]

theorem find_version_idx_lt (versions : List VersionGitTree) (v : Version)
    (h : (find_same_version versions v).isSome) :
    find_version_idx versions v < versions.length := by
  induction versions with
  | nil => simp [find_same_version] at h
  | cons a rest ih =>
    by_cases hv : a.1.version = v
    · simp [find_version_idx, hv]
    · have hrec := ih (by simpa [find_same_version, hv] using h)
      simpa [find_version_idx, hv, List.length_cons] using Nat.succ_lt_succ hrec

theorem find_same_sha_replace (port_version : SchemedVersion) (git_tree : String)
    (versions : List VersionGitTree)
    (hsha : find_same_sha versions git_tree = none)
    (hver : (find_same_version versions port_version.version).isSome) :
    find_same_sha (replace_first_version_match port_version git_tree versions) git_tree =
      some (port_version, git_tree) := by
  induction versions with
  | nil => simp [find_same_version] at hver
  | cons a rest ih =>
    have hane : a.2 ≠ git_tree := by
      intro hc
      simp [find_same_sha, hc] at hsha
    have hrest : find_same_sha rest git_tree = none := by
      simpa [find_same_sha, hane] using hsha
    by_cases h : a.1.version = port_version.version
    · simp [replace_first_version_match, h, find_same_sha]
    · have hver' : (find_same_version rest port_version.version).isSome := by
        simpa [find_same_version, h] using hver
      simp [replace_first_version_match, h, find_same_sha, hane, ih hrest hver']

theorem mem_replace_first (port_version : SchemedVersion) (git_tree : String)
    (versions : List VersionGitTree) (x : VersionGitTree)
    (hx : x ∈ replace_first_version_match port_version git_tree versions) :
    x = (port_version, git_tree) ∨ x ∈ versions := by
  induction versions with
  | nil => simp [replace_first_version_match] at hx
  | cons a rest ih =>
    by_cases h : a.1.version = port_version.version
    · simp only [replace_first_version_match, if_pos h, List.mem_cons] at hx
      rcases hx with rfl | hx'
      · exact Or.inl rfl
      · exact Or.inr (List.mem_cons_of_mem _ hx')
    · simp only [replace_first_version_match, if_neg h, List.mem_cons] at hx
      rcases hx with rfl | hx'
      · exact Or.inr (List.mem_cons_self _ _)
      · rcases ih hx' with h' | h'
        · exact Or.inl h'
        · exact Or.inr (List.mem_cons_of_mem _ h')

theorem history_invariant_cons (e : VersionGitTree) (rest : List VersionGitTree) :
    history_invariant (e :: rest) = true ↔
      (∀ other ∈ rest, other.2 ≠ e.2 ∧ other.1.version ≠ e.1.version) ∧
        history_invariant rest = true := by
  simp [history_invariant]

theorem history_invariant_insert (port_version : SchemedVersion) (git_tree : String)
    (versions : List VersionGitTree)
    (hinv : history_invariant versions = true)
    (hsha : ∀ e ∈ versions, e.2 ≠ git_tree)
    (hver : ∀ e ∈ versions, e.1.version ≠ port_version.version) :
    history_invariant ((port_version, git_tree) :: versions) = true := by
  rw [history_invariant_cons]
  exact ⟨fun other hmem => ⟨hsha other hmem, hver other hmem⟩, hinv⟩

theorem history_invariant_replace (port_version : SchemedVersion) (git_tree : String)
    (versions : List VersionGitTree)
    (hinv : history_invariant versions = true)
    (hsha : ∀ e ∈ versions, e.2 ≠ git_tree) :
    history_invariant (replace_first_version_match port_version git_tree versions) = true := by
  induction versions with
  | nil => simp [replace_first_version_match, history_invariant]
  | cons a rest ih =>
    rw [history_invariant_cons] at hinv
    by_cases h : a.1.version = port_version.version
    · simp only [replace_first_version_match, if_pos h]
      rw [history_invariant_cons]
      refine ⟨fun other hmem => ?_, hinv.2⟩
      exact ⟨hsha other (List.mem_cons_of_mem _ hmem),
        fun hc => (hinv.1 other hmem).2 (hc.trans h.symm)⟩
    · simp only [replace_first_version_match, if_neg h]
      rw [history_invariant_cons]
      refine ⟨fun other hmem => ?_, ih hinv.2
        (fun e he => hsha e (List.mem_cons_of_mem _ he))⟩
      rcases mem_replace_first port_version git_tree rest other hmem with rfl | hmem'
      · exact ⟨fun hc => (hsha a (List.mem_cons_self _ _)) hc.symm,
          fun hc => h hc.symm⟩
      · exact hinv.1 other hmem'

theorem find_port_baseline_set (baseline_map : List (String × Version))
    (port_name : String) (version : Version) :
    find_port (baseline_set baseline_map port_name version) port_name =
      some (port_name, version) := by
  induction baseline_map with
  | nil => simp [baseline_set, find_port]
  | cons kv rest ih =>
    by_cases h : kv.1 = port_name
    · simp [baseline_set, h, find_port]
    · by_cases h2 : port_name < kv.1
      · simp [baseline_set, h, h2, find_port]
      · simp [baseline_set, h, h2, find_port, ih]

theorem find_port_some_key (baseline_map : List (String × Version)) (port_name : String)
    (kv : String × Version) (h : find_port baseline_map port_name = some kv) :
    kv.1 = port_name := by
  induction baseline_map with
  | nil => simp [find_port] at h
  | cons a rest ih =>
    by_cases ha : a.1 = port_name
    · simp only [find_port, if_pos ha, Option.some.injEq] at h
      exact h ▸ ha
    · simp only [find_port, if_neg ha] at h
      exact ih h

/-- After any call of the baseline reconciler, the map binds the port to the
requested version. -/
theorem update_baseline_lookup (port_name : String) (version : Version) (path : String)
    (baseline_map : List (String × Version)) (print_success : Bool) :
    ∃ kv, find_port
        (update_baseline_version port_name version path baseline_map print_success).2.2.1
        port_name = some kv ∧ kv.2 = version := by
  unfold update_baseline_version
  cases hf : find_port baseline_map port_name with
  | none =>
    exact ⟨(port_name, version), by simp [find_port_baseline_set], rfl⟩
  | some kv =>
    by_cases h : kv.2 = version
    · exact ⟨kv, by simp [h, hf], h⟩
    · exact ⟨(port_name, version), by simp [h, find_port_baseline_set], rfl⟩

/-- Inversion for a non-exiting call of the history reconciler: either it
signalled `NotUpdated` and wrote nothing, or it signalled `Updated`, wrote,
and the written history binds the new fingerprint to the new schemed
version, preserving the invariant. -/
theorem update_version_db_ok_inversion
    (port_name : String) (port_version : SchemedVersion) (git_tree path : String)
    (file : FileContent) (ov ps kg skip : Bool)
    (msgs : List Msg) (result : UpdateResult) (new_file : FileContent) (wrote : Bool)
    (hupd : update_version_db_file port_name port_version git_tree path file ov ps kg skip =
      Outcome.ok msgs (result, new_file, wrote)) :
    (result = UpdateResult.NotUpdated ∧ new_file = file ∧ wrote = false) ∨
    (result = UpdateResult.Updated ∧ wrote = true ∧ ∃ versions',
      new_file = FileContent.parsed versions' ∧
      find_same_sha versions' git_tree = some (port_version, git_tree) ∧
      (file_invariant file = true → history_invariant versions' = true)) := by
  cases file with
  | absent =>
    simp only [update_version_db_file] at hupd
    cases hsch : (if skip then none else check_used_version_scheme port_version port_name) with
    | some m => rw [hsch] at hupd; simp at hupd
    | none =>
      rw [hsch] at hupd
      simp only [Outcome.ok.injEq, Prod.mk.injEq] at hupd
      obtain ⟨-, h1, h2, h3⟩ := hupd
      refine Or.inr ⟨h1.symm, h3.symm, [(port_version, git_tree)], h2.symm, ?_, ?_⟩
      · simp [find_same_sha]
      · intro _
        simp [history_invariant]
  | malformed =>
    simp only [update_version_db_file] at hupd
    simp at hupd
  | parsed versions =>
    cases hsha : find_same_sha versions git_tree with
    | some found =>
      simp only [update_version_db_file, hsha] at hupd
      by_cases hv : found.1.version = port_version.version
      · rw [if_pos hv] at hupd
        simp only [Outcome.ok.injEq, Prod.mk.injEq] at hupd
        obtain ⟨-, h1, h2, h3⟩ := hupd
        exact Or.inl ⟨h1.symm, h2.symm, h3.symm⟩
      · rw [if_neg hv] at hupd
        cases kg with
        | false => simp at hupd
        | true =>
          simp only [eq_self_iff_true, if_true, Outcome.ok.injEq, Prod.mk.injEq] at hupd
          obtain ⟨-, h1, h2, h3⟩ := hupd
          exact Or.inl ⟨h1.symm, h2.symm, h3.symm⟩
    | none =>
      simp only [update_version_db_file, hsha] at hupd
      have hsha_all : ∀ e ∈ versions, e.2 ≠ git_tree :=
        (find_same_sha_eq_none_iff versions git_tree).mp hsha
      by_cases hvs : (find_same_version versions port_version.version).isSome
      · rw [if_pos hvs] at hupd
        cases ov with
        | false =>
          simp only [Bool.not_false, eq_self_iff_true, if_true] at hupd
          cases kg with
          | false => simp at hupd
          | true =>
            simp only [eq_self_iff_true, if_true, Outcome.ok.injEq, Prod.mk.injEq] at hupd
            obtain ⟨-, h1, h2, h3⟩ := hupd
            exact Or.inl ⟨h1.symm, h2.symm, h3.symm⟩
        | true =>
          simp only [Bool.not_true, if_neg (by simp : ¬(false = true))] at hupd
          unfold finish_versions_write at hupd
          cases hsch : (if skip then none
              else check_used_version_scheme port_version port_name) with
          | some m => rw [hsch] at hupd; simp at hupd
          | none =>
            rw [hsch] at hupd
            simp only [Outcome.ok.injEq, Prod.mk.injEq] at hupd
            obtain ⟨-, h1, h2, h3⟩ := hupd
            refine Or.inr ⟨h1.symm, h3.symm,
              replace_first_version_match port_version git_tree versions, h2.symm,
              find_same_sha_replace port_version git_tree versions hsha hvs, ?_⟩
            intro hinv
            exact history_invariant_replace port_version git_tree versions hinv hsha_all
      · rw [if_neg hvs] at hupd
        unfold finish_versions_write at hupd
        cases hsch : (if skip then none
            else check_used_version_scheme port_version port_name) with
        | some m => rw [hsch] at hupd; simp at hupd
        | none =>
          rw [hsch] at hupd
          simp only [Outcome.ok.injEq, Prod.mk.injEq] at hupd
          obtain ⟨-, h1, h2, h3⟩ := hupd
          have hver_none : find_same_version versions port_version.version = none := by
            cases hfv : find_same_version versions port_version.version with
            | none => rfl
            | some e => rw [hfv] at hvs; simp at hvs
          refine Or.inr ⟨h1.symm, h3.symm, (port_version, git_tree) :: versions, h2.symm,
            ?_, ?_⟩
          · simp [find_same_sha]
          · intro hinv
            exact history_invariant_insert port_version git_tree versions hinv hsha_all
              ((find_same_version_eq_none_iff versions port_version.version).mp hver_none)

/-- The `Updated` branch of the reconciler for a genuinely new entry, shared
by the C4 statements: fresh fingerprint and fresh version prepend the entry. -/
theorem update_version_db_insert (port_name : String) (port_version : SchemedVersion)
    (git_tree path : String) (versions : List VersionGitTree) (ov ps kg skip : Bool)
    (hsha : find_same_sha versions git_tree = none)
    (hver : find_same_version versions port_version.version = none)
    (hscheme : skip = true ∨ check_used_version_scheme port_version port_name = none) :
    update_version_db_file port_name port_version git_tree path (FileContent.parsed versions)
        ov ps kg skip =
      Outcome.ok (if ps then [Msg.addedVersionToFile path] else [])
        (UpdateResult.Updated, FileContent.parsed ((port_version, git_tree) :: versions),
         true) := by
  have hsch : (if skip then none else check_used_version_scheme port_version port_name)
      = none := by
    rcases hscheme with h | h <;> simp [h]
  simp [update_version_db_file, hsha, hver, finish_versions_write, hsch]

/-- C2 (counterexample): a history entry whose version text equals the new
version's text (but whose port-version differs) and whose fingerprint
differs is not treated as a conflict: without the override flag and in
single-port (fatal) mode the reconciler happily prepends a new entry and
signals `Updated` — the search of line 338 compares the full `Version`
(text and port-version), not the version text. -/
theorem addversion_version_text_conflict_counterexample :
    update_version_db_file "p" ⟨VersionScheme.Relaxed, ⟨"1.2.0", 1⟩⟩ "B" (version_db_path "p")
        (FileContent.parsed [(⟨VersionScheme.Relaxed, ⟨"1.2.0", 0⟩⟩, "A")])
        false false false false =
      Outcome.ok []
        (UpdateResult.Updated,
         FileContent.parsed [(⟨VersionScheme.Relaxed, ⟨"1.2.0", 1⟩⟩, "B"),
                             (⟨VersionScheme.Relaxed, ⟨"1.2.0", 0⟩⟩, "A")], true) ∧
    (⟨"1.2.0", 0⟩ : Version).text = (⟨"1.2.0", 1⟩ : Version).text ∧ "A" ≠ "B" := by
  refine ⟨by decide, rfl, by decide⟩

/-- C2 (amended): for a history with no entry carrying the new fingerprint
but an entry whose full `Version` (text and port-version) equals the new
version's: without the override flag the reconciler refuses, leaves the
history unchanged, and exits the run in single-port mode or signals
`NotUpdated` in batch mode; with the override flag it replaces that entry's
scheme and fingerprint in place at the same position and signals `Updated`. -/
theorem addversion_version_conflict_refuse_or_overwrite
    (port_name : String) (port_version : SchemedVersion) (git_tree path : String)
    (versions : List VersionGitTree) (e0 : VersionGitTree)
    (print_success keep_going skip_version_format_check : Bool)
    (hsha : find_same_sha versions git_tree = none)
    (hver : find_same_version versions port_version.version = some e0)
    (hscheme : skip_version_format_check = true ∨
      check_used_version_scheme port_version port_name = none) :
    (update_version_db_file port_name port_version git_tree path (FileContent.parsed versions)
        false print_success keep_going skip_version_format_check =
      if keep_going then
        Outcome.ok [Msg.portFilesShaChanged port_name, Msg.noFilesUpdated]
          (UpdateResult.NotUpdated, FileContent.parsed versions, false)
      else Outcome.exited [Msg.portFilesShaChanged port_name, Msg.noFilesUpdated] 1) ∧
    (update_version_db_file port_name port_version git_tree path (FileContent.parsed versions)
        true print_success keep_going skip_version_format_check =
      Outcome.ok (if print_success then [Msg.addedVersionToFile path] else [])
        (UpdateResult.Updated,
         FileContent.parsed (versions.set (find_version_idx versions port_version.version)
           (port_version, git_tree)), true)) ∧
    find_version_idx versions port_version.version < versions.length := by
  have hsome : (find_same_version versions port_version.version).isSome := by simp [hver]
  have hsch : (if skip_version_format_check then none
      else check_used_version_scheme port_version port_name) = none := by
    rcases hscheme with h | h <;> simp [h]
  refine ⟨?_, ?_, find_version_idx_lt _ _ hsome⟩
  · cases keep_going <;>
      simp [update_version_db_file, hsha, hsome]
  · simp [update_version_db_file, hsha, hsome, finish_versions_write, hsch,
      replace_first_eq_set]

/-- Witness for `addversion_version_conflict_refuse_or_overwrite`: the entry
for version `1.0` is rewritten in place (scheme `Date` becomes `Relaxed`,
fingerprint `A` becomes `B`) under the override flag, and refused without. -/
theorem addversion_version_conflict_refuse_or_overwrite_witness :
    update_version_db_file "p" ⟨VersionScheme.Relaxed, ⟨"1.0", 0⟩⟩ "B" (version_db_path "p")
        (FileContent.parsed [(⟨VersionScheme.Date, ⟨"1.0", 0⟩⟩, "A")]) false false false false =
      Outcome.exited [Msg.portFilesShaChanged "p", Msg.noFilesUpdated] 1 ∧
    update_version_db_file "p" ⟨VersionScheme.Relaxed, ⟨"1.0", 0⟩⟩ "B" (version_db_path "p")
        (FileContent.parsed [(⟨VersionScheme.Date, ⟨"1.0", 0⟩⟩, "A")]) true false false false =
      Outcome.ok []
        (UpdateResult.Updated,
         FileContent.parsed [(⟨VersionScheme.Relaxed, ⟨"1.0", 0⟩⟩, "B")], true) := by
  have h := addversion_version_conflict_refuse_or_overwrite "p"
    ⟨VersionScheme.Relaxed, ⟨"1.0", 0⟩⟩ "B" (version_db_path "p")
    [(⟨VersionScheme.Date, ⟨"1.0", 0⟩⟩, "A")] (⟨VersionScheme.Date, ⟨"1.0", 0⟩⟩, "A")
    false false false (by decide) (by decide) (Or.inr (by decide))
  exact ⟨by simpa using h.1, by simpa [find_version_idx] using h.2.1⟩

/-- C3: for a history (satisfying the invariant) that contains an entry with
the new fingerprint but a different version, the reconciler reports
`portFilesShaUnchanged` (the `ContentUnchangedVersionChanged` condition),
leaves the history unchanged, signals `NotUpdated` in batch mode, and fails
the whole run in single-port (fatal) mode. -/
theorem addversion_content_unchanged_version_changed
    (port_name : String) (port_version : SchemedVersion) (git_tree path : String)
    (versions : List VersionGitTree) (e : VersionGitTree)
    (overwrite_version print_success keep_going skip_version_format_check : Bool)
    (hinv : history_invariant versions = true)
    (hmem : e ∈ versions) (hgt : e.2 = git_tree)
    (hne : e.1.version ≠ port_version.version) :
    update_version_db_file port_name port_version git_tree path (FileContent.parsed versions)
        overwrite_version print_success keep_going skip_version_format_check =
      if keep_going then
        Outcome.ok [Msg.portFilesShaUnchanged port_name e.1.version, Msg.noFilesUpdated]
          (UpdateResult.NotUpdated, FileContent.parsed versions, false)
      else Outcome.exited
        [Msg.portFilesShaUnchanged port_name e.1.version, Msg.noFilesUpdated] 1 := by
  have hfind := find_same_sha_of_mem versions e git_tree hinv hmem hgt
  cases keep_going <;> simp [update_version_db_file, hfind, hne]

/-- Witness for `addversion_content_unchanged_version_changed` at a concrete
input, in batch mode. -/
theorem addversion_content_unchanged_version_changed_witness :
    update_version_db_file "p" ⟨VersionScheme.Relaxed, ⟨"2.0", 0⟩⟩ "A" (version_db_path "p")
        (FileContent.parsed [(⟨VersionScheme.Relaxed, ⟨"1.0", 0⟩⟩, "A")]) false false true false =
      Outcome.ok [Msg.portFilesShaUnchanged "p" ⟨"1.0", 0⟩, Msg.noFilesUpdated]
        (UpdateResult.NotUpdated,
         FileContent.parsed [(⟨VersionScheme.Relaxed, ⟨"1.0", 0⟩⟩, "A")], false) := by
  have h := addversion_content_unchanged_version_changed "p"
    ⟨VersionScheme.Relaxed, ⟨"2.0", 0⟩⟩ "A" (version_db_path "p")
    [(⟨VersionScheme.Relaxed, ⟨"1.0", 0⟩⟩, "A")] (⟨VersionScheme.Relaxed, ⟨"1.0", 0⟩⟩, "A")
    false false true false (by decide) (by decide) rfl (by decide)
  simpa using h

/-- Repeated application of the history reconciler, threading the on-disk
file between runs; `none` when some application exits the process. -/
def apply_updates (port_name path : String)
    (overwrite_version print_success keep_going skip_version_format_check : Bool) :
    List VersionGitTree → FileContent → Option FileContent
  | [], file => some file
  | u :: rest, file =>
    match update_version_db_file port_name u.1 u.2 path file overwrite_version
        print_success keep_going skip_version_format_check with
    | Outcome.ok _ (_, new_file, _) =>
      apply_updates port_name path overwrite_version print_success keep_going
        skip_version_format_check rest new_file
    | Outcome.exited _ _ => none

/-- Sequenced fresh insertions accumulate in reverse order on top of the
starting history. -/
theorem apply_updates_fresh (port_name path : String) (ov ps kg skip : Bool)
    (updates : List VersionGitTree) :
    ∀ acc : List VersionGitTree,
    List.Pairwise (fun a b => a.1.version ≠ b.1.version ∧ a.2 ≠ b.2) updates →
    (∀ u ∈ updates, skip = true ∨ check_used_version_scheme u.1 port_name = none) →
    (∀ u ∈ updates, find_same_sha acc u.2 = none ∧
      find_same_version acc u.1.version = none) →
    apply_updates port_name path ov ps kg skip updates (FileContent.parsed acc) =
      some (FileContent.parsed (updates.reverse ++ acc)) := by
  induction updates with
  | nil => intro acc _ _ _; simp [apply_updates]
  | cons u rest ih =>
    intro acc hpw hsch hfresh
    obtain ⟨hpw_head, hpw_rest⟩ := List.pairwise_cons.mp hpw
    obtain ⟨hsha, hver⟩ := hfresh u (List.mem_cons_self u rest)
    have hstep := update_version_db_insert port_name u.1 u.2 path acc ov ps kg skip
      hsha hver (hsch u (List.mem_cons_self u rest))
    have hrec := ih (u :: acc) hpw_rest
      (fun x hx => hsch x (List.mem_cons_of_mem _ hx))
      (fun x hx => by
        obtain ⟨hx_sha, hx_ver⟩ := hfresh x (List.mem_cons_of_mem _ hx)
        obtain ⟨hxv, hxs⟩ := hpw_head x hx
        exact ⟨by simp [find_same_sha, hxs, hx_sha], by simp [find_same_version, hxv, hx_ver]⟩)
    simp only [apply_updates, hstep, hrec, List.reverse_cons, List.append_assoc,
      List.singleton_append]

/-- C4: a fingerprint and version matching no existing entry create a
single-entry history when no file exists; with an existing history the new
entry is inserted at index 0; and N sequential genuinely-new updates
v1..vN starting with no history produce the array order vN, ..., v1
(the reverse of the update order). -/
theorem addversion_new_version_prepend (port_name path : String)
    (overwrite_version print_success keep_going skip_version_format_check : Bool) :
    (∀ (port_version : SchemedVersion) (git_tree : String),
      (skip_version_format_check = true ∨
        check_used_version_scheme port_version port_name = none) →
      update_version_db_file port_name port_version git_tree path FileContent.absent
          overwrite_version print_success keep_going skip_version_format_check =
        Outcome.ok
          (if print_success then [Msg.addedVersionToFile path, Msg.newFile] else [])
          (UpdateResult.Updated, FileContent.parsed [(port_version, git_tree)], true)) ∧
    (∀ (port_version : SchemedVersion) (git_tree : String)
        (versions : List VersionGitTree),
      find_same_sha versions git_tree = none →
      find_same_version versions port_version.version = none →
      (skip_version_format_check = true ∨
        check_used_version_scheme port_version port_name = none) →
      update_version_db_file port_name port_version git_tree path
          (FileContent.parsed versions) overwrite_version print_success keep_going
          skip_version_format_check =
        Outcome.ok (if print_success then [Msg.addedVersionToFile path] else [])
          (UpdateResult.Updated,
           FileContent.parsed ((port_version, git_tree) :: versions), true)) ∧
    (∀ updates : List VersionGitTree, updates ≠ [] →
      List.Pairwise (fun a b => a.1.version ≠ b.1.version ∧ a.2 ≠ b.2) updates →
      (∀ u ∈ updates, skip_version_format_check = true ∨
        check_used_version_scheme u.1 port_name = none) →
      apply_updates port_name path overwrite_version print_success keep_going
          skip_version_format_check updates FileContent.absent =
        some (FileContent.parsed updates.reverse)) := by
  refine ⟨?_, ?_, ?_⟩
  · intro port_version git_tree hscheme
    have hsch : (if skip_version_format_check then none
        else check_used_version_scheme port_version port_name) = none := by
      rcases hscheme with h | h <;> simp [h]
    simp [update_version_db_file, hsch]
  · intro port_version git_tree versions hsha hver hscheme
    exact update_version_db_insert port_name port_version git_tree path versions
      overwrite_version print_success keep_going skip_version_format_check hsha hver hscheme
  · intro updates hnil hpw hsch
    cases updates with
    | nil => exact absurd rfl hnil
    | cons u rest =>
      obtain ⟨hpw_head, hpw_rest⟩ := List.pairwise_cons.mp hpw
      have hsch_u : (if skip_version_format_check then none
          else check_used_version_scheme u.1 port_name) = none := by
        rcases hsch u (List.mem_cons_self u rest) with h | h <;> simp [h]
      have hstep : update_version_db_file port_name u.1 u.2 path FileContent.absent
          overwrite_version print_success keep_going skip_version_format_check =
        Outcome.ok
          (if print_success then [Msg.addedVersionToFile path, Msg.newFile] else [])
          (UpdateResult.Updated, FileContent.parsed [(u.1, u.2)], true) := by
        simp [update_version_db_file, hsch_u]
      have hrec := apply_updates_fresh port_name path overwrite_version print_success
        keep_going skip_version_format_check rest [u] hpw_rest
        (fun x hx => hsch x (List.mem_cons_of_mem _ hx))
        (fun x hx => by
          obtain ⟨hxv, hxs⟩ := hpw_head x hx
          exact ⟨by simp [find_same_sha, hxs], by simp [find_same_version, hxv]⟩)
      simp only [apply_updates, hstep, hrec, List.reverse_cons]

/-- Witness for `addversion_new_version_prepend`: creation of a fresh file
and two sequential new versions ending up newest-first. -/
theorem addversion_new_version_prepend_witness :
    update_version_db_file "p" ⟨VersionScheme.Relaxed, ⟨"1.0", 0⟩⟩ "A" (version_db_path "p")
        FileContent.absent false false false false =
      Outcome.ok [] (UpdateResult.Updated,
        FileContent.parsed [(⟨VersionScheme.Relaxed, ⟨"1.0", 0⟩⟩, "A")], true) ∧
    apply_updates "p" (version_db_path "p") false false false false
        [(⟨VersionScheme.Relaxed, ⟨"1.0", 0⟩⟩, "A"),
         (⟨VersionScheme.Relaxed, ⟨"2.0", 0⟩⟩, "B")] FileContent.absent =
      some (FileContent.parsed [(⟨VersionScheme.Relaxed, ⟨"2.0", 0⟩⟩, "B"),
        (⟨VersionScheme.Relaxed, ⟨"1.0", 0⟩⟩, "A")]) := by
  have h := addversion_new_version_prepend "p" (version_db_path "p") false false false false
  refine ⟨by simpa using h.1 ⟨VersionScheme.Relaxed, ⟨"1.0", 0⟩⟩ "A" (Or.inr (by decide)), ?_⟩
  have h3 := h.2.2 [(⟨VersionScheme.Relaxed, ⟨"1.0", 0⟩⟩, "A"),
      (⟨VersionScheme.Relaxed, ⟨"2.0", 0⟩⟩, "B")] (by decide) (by decide) (by decide)
  simpa using h3

/-- C5 (counterexample): the reconciler does not preserve the version-text
half of the claimed invariant: starting from a history whose entries have
pairwise distinct fingerprints and version texts, recording the same version
text under a different port-version and fingerprint prepends a second entry
with the same text. -/
theorem addversion_text_invariant_counterexample :
    history_text_invariant [(⟨VersionScheme.Relaxed, ⟨"1.2.0", 0⟩⟩, "A")] = true ∧
    update_version_db_file "q" ⟨VersionScheme.Relaxed, ⟨"1.2.0", 1⟩⟩ "B" (version_db_path "q")
        (FileContent.parsed [(⟨VersionScheme.Relaxed, ⟨"1.2.0", 0⟩⟩, "A")])
        false false false false =
      Outcome.ok [] (UpdateResult.Updated, FileContent.parsed
        [(⟨VersionScheme.Relaxed, ⟨"1.2.0", 1⟩⟩, "B"),
         (⟨VersionScheme.Relaxed, ⟨"1.2.0", 0⟩⟩, "A")], true) ∧
    history_text_invariant [(⟨VersionScheme.Relaxed, ⟨"1.2.0", 1⟩⟩, "B"),
      (⟨VersionScheme.Relaxed, ⟨"1.2.0", 0⟩⟩, "A")] = false := by
  decide

/-- C5 (amended): every non-exiting run of the history reconciler preserves
the invariant the code actually maintains: pairwise distinct fingerprints
and pairwise distinct full `Version`s (text and port-version together). -/
theorem addversion_reconciler_preserves_invariant
    (port_name : String) (port_version : SchemedVersion) (git_tree path : String)
    (file new_file : FileContent) (ov ps kg skip : Bool)
    (msgs : List Msg) (result : UpdateResult) (wrote : Bool)
    (hinv : file_invariant file = true)
    (hupd : update_version_db_file port_name port_version git_tree path file ov ps kg skip =
      Outcome.ok msgs (result, new_file, wrote)) :
    file_invariant new_file = true := by
  rcases update_version_db_ok_inversion port_name port_version git_tree path file ov ps kg
      skip msgs result new_file wrote hupd with
    ⟨-, hfile, -⟩ | ⟨-, -, versions', hfile, -, himpl⟩
  · rw [hfile]
    exact hinv
  · rw [hfile]
    simpa [file_invariant] using himpl hinv

/-- Witness for `addversion_reconciler_preserves_invariant` at a concrete
input (creation of a fresh single-entry history). -/
theorem addversion_reconciler_preserves_invariant_witness :
    file_invariant (FileContent.parsed [(⟨VersionScheme.Relaxed, ⟨"1.0", 0⟩⟩, "A")]) = true :=
  addversion_reconciler_preserves_invariant "p" ⟨VersionScheme.Relaxed, ⟨"1.0", 0⟩⟩ "A"
    (version_db_path "p") FileContent.absent
    (FileContent.parsed [(⟨VersionScheme.Relaxed, ⟨"1.0", 0⟩⟩, "A")])
    false false false false [] UpdateResult.Updated true (by decide) (by decide)

/-- C6: if running the combined per-port step (history reconciler then
baseline reconciler, lines 544-559) signals `Updated` for the history file,
then running the very same (port, version, fingerprint) update again signals
`NotUpdated` for both reconcilers, performs no write, and leaves the whole
on-disk state unchanged. -/
theorem addversion_idempotent_second_run
    (port_name : String) (port_version : SchemedVersion) (git_tree : String)
    (overwrite_version verbose keep_going skip_version_format_check : Bool)
    (st st1 : PortStepState) (m : List Msg) (ub : UpdateResult) (w1 w2 : Bool)
    (h : process_port_updates port_name port_version git_tree overwrite_version verbose
        keep_going skip_version_format_check st =
      Outcome.ok m (UpdateResult.Updated, ub, st1, w1, w2)) :
    process_port_updates port_name port_version git_tree overwrite_version verbose
        keep_going skip_version_format_check st1 =
      Outcome.ok
        (if verbose then [Msg.versionAlreadyInFile (version_db_path port_name),
          Msg.versionAlreadyInFile baseline_path, Msg.noFilesUpdatedForPort port_name]
         else [])
        (UpdateResult.NotUpdated, UpdateResult.NotUpdated, st1, false, false) := by
  obtain ⟨f1, bm1, bf1⟩ := st1
  unfold process_port_updates at h
  cases hu : update_version_db_file port_name port_version git_tree (version_db_path port_name)
      st.version_db_file overwrite_version verbose keep_going skip_version_format_check with
  | exited m' c =>
    rw [hu] at h
    simp at h
  | ok m1 val =>
    obtain ⟨uv, nf, wv⟩ := val
    rw [hu] at h
    simp only [Outcome.ok.injEq, Prod.mk.injEq, PortStepState.mk.injEq] at h
    obtain ⟨-, hval1, hub, ⟨hf1, hbm1, hbf1⟩, hw1, hw2⟩ := h
    rcases update_version_db_ok_inversion port_name port_version git_tree
        (version_db_path port_name) st.version_db_file overwrite_version verbose keep_going
        skip_version_format_check m1 uv nf wv hu with
      ⟨huv, -, -⟩ | ⟨-, -, versions', hnf, hfind, -⟩
    · exact absurd (hval1.symm.trans huv) (by simp)
    · obtain ⟨kv, hkv, hkveq⟩ := update_baseline_lookup port_name port_version.version
        baseline_path st.baseline_map verbose
      rw [hbm1] at hkv
      have hsecond : update_version_db_file port_name port_version git_tree
          (version_db_path port_name) f1 overwrite_version verbose keep_going
          skip_version_format_check =
        Outcome.ok
          (if verbose then [Msg.versionAlreadyInFile (version_db_path port_name)] else [])
          (UpdateResult.NotUpdated, f1, false) := by
        rw [← hf1, hnf]
        simp [update_version_db_file, hfind]
      have hbase : update_baseline_version port_name port_version.version baseline_path
          bm1 verbose =
        ((if verbose then [Msg.versionAlreadyInFile baseline_path] else []),
         UpdateResult.NotUpdated, bm1, false) := by
        simp [update_baseline_version, hkv, hkveq]
      cases verbose <;> simp [process_port_updates, hsecond, hbase]

/-- Witness for `addversion_idempotent_second_run`: after recording version
`1.0` with fingerprint `A` into an empty registry, the identical second run
signals `NotUpdated` twice and changes nothing. -/
theorem addversion_idempotent_second_run_witness :
    process_port_updates "p" ⟨VersionScheme.Relaxed, ⟨"1.0", 0⟩⟩ "A" false false false false
        ⟨FileContent.parsed [(⟨VersionScheme.Relaxed, ⟨"1.0", 0⟩⟩, "A")],
         [("p", ⟨"1.0", 0⟩)], BaselineFile.parsed [("p", ⟨"1.0", 0⟩)]⟩ =
      Outcome.ok [] (UpdateResult.NotUpdated, UpdateResult.NotUpdated,
        ⟨FileContent.parsed [(⟨VersionScheme.Relaxed, ⟨"1.0", 0⟩⟩, "A")],
         [("p", ⟨"1.0", 0⟩)], BaselineFile.parsed [("p", ⟨"1.0", 0⟩)]⟩, false, false) := by
  have h := addversion_idempotent_second_run "p" ⟨VersionScheme.Relaxed, ⟨"1.0", 0⟩⟩ "A"
    false false false false ⟨FileContent.absent, [], BaselineFile.parsed []⟩
    ⟨FileContent.parsed [(⟨VersionScheme.Relaxed, ⟨"1.0", 0⟩⟩, "A")],
     [("p", ⟨"1.0", 0⟩)], BaselineFile.parsed [("p", ⟨"1.0", 0⟩)]⟩
    [] UpdateResult.Updated true true (by decide)
  simpa using h
